import Mathlib

/-!
Verification of the sen2nbar NBAR correction pipeline.

The numeric code operates pointwise on arrays; we embed it as scalar
functions over ℚ, with the transcendental primitives supplied by numpy
(cos, sin, tan, arctan, arccos, sqrt, π) abstracted as an explicit record
of operations, so every definition stays executable and the structural
properties are proved for every choice of primitives.
-/

namespace Sen2nbar

/-- Numeric primitives used by the kernel code (numpy trigonometry). -/
structure NumOps where
  cos : ℚ → ℚ
  sin : ℚ → ℚ
  tan : ℚ → ℚ
  arctan : ℚ → ℚ
  arccos : ℚ → ℚ
  sqrt : ℚ → ℚ
  pi : ℚ

/-- Degree-to-radian conversion, np.deg2rad. -/
def deg2rad (ops : NumOps) (x : ℚ) : ℚ :=
  x * ops.pi / 180

/-- Raw overlap-angle cosine of kernels.py kgeo (Equation 41), before clamping. -/
def kgeo_cos_t_raw (ops : NumOps) (sun_zenith view_zenith relative_azimuth br hb : ℚ) : ℚ :=
  let theta_i := deg2rad ops sun_zenith
  let theta_v := deg2rad ops view_zenith
  let phi := deg2rad ops relative_azimuth
  let theta_i_dev := ops.arctan (br * ops.tan theta_i)
  let theta_v_dev := ops.arctan (br * ops.tan theta_v)
  let D := ops.sqrt
    ((ops.tan theta_i_dev) ^ 2 + (ops.tan theta_v_dev) ^ 2
      - 2 * ops.tan theta_i_dev * ops.tan theta_v_dev * ops.cos phi)
  hb * ops.sqrt (D ^ 2 + (ops.tan theta_i_dev * ops.tan theta_v_dev * ops.sin phi) ^ 2)
    / (1 / ops.cos theta_i_dev + 1 / ops.cos theta_v_dev)

/-- Clamped overlap-angle cosine: the two successive where-clamps of kernels.py
(values above 1 replaced by 1, then values below -1 replaced by -1). -/
def kgeo_cos_t (ops : NumOps) (sun_zenith view_zenith relative_azimuth br hb : ℚ) : ℚ :=
  let raw := kgeo_cos_t_raw ops sun_zenith view_zenith relative_azimuth br hb
  let clamped_above := if raw ≤ 1 then raw else 1
  if -1 ≤ clamped_above then clamped_above else -1

/-- Geometric (LiSparse-R) kernel of kernels.py, with explicit br and hb parameters
(the code defaults them to 1.0 and 2.0). -/
def kgeo (ops : NumOps) (sun_zenith view_zenith relative_azimuth br hb : ℚ) : ℚ :=
  let theta_i := deg2rad ops sun_zenith
  let theta_v := deg2rad ops view_zenith
  let phi := deg2rad ops relative_azimuth
  let theta_i_dev := ops.arctan (br * ops.tan theta_i)
  let theta_v_dev := ops.arctan (br * ops.tan theta_v)
  let cos_xi_dev := ops.cos theta_i_dev * ops.cos theta_v_dev
    + ops.sin theta_i_dev * ops.sin theta_v_dev * ops.cos phi
  let cos_t := kgeo_cos_t ops sun_zenith view_zenith relative_azimuth br hb
  let t := ops.arccos cos_t
  let O := (1 / ops.pi) * (t - ops.sin t * cos_t)
    * (1 / ops.cos theta_i_dev + 1 / ops.cos theta_v_dev)
  O - 1 / ops.cos theta_i_dev - 1 / ops.cos theta_v_dev
    + (1 / 2) * (1 + cos_xi_dev) * (1 / ops.cos theta_i_dev) * (1 / ops.cos theta_v_dev)

/-- Volumetric (RossThick) kernel of kernels.py. -/
def kvol (ops : NumOps) (sun_zenith view_zenith relative_azimuth : ℚ) : ℚ :=
  let theta_i := deg2rad ops sun_zenith
  let theta_v := deg2rad ops view_zenith
  let phi := deg2rad ops relative_azimuth
  let cos_xi := ops.cos theta_i * ops.cos theta_v
    + ops.sin theta_i * ops.sin theta_v * ops.cos phi
  let xi := ops.arccos cos_xi
  ((ops.pi / 2 - xi) * cos_xi + ops.sin xi) / (ops.cos theta_i + ops.cos theta_v)
    - ops.pi / 4

/-- Ross-Thick formula exactly as worded in the specification: with the angles
converted to radians, the phase-angle cosine, its arccos, and the closed form
result expression. Used only to compare against the source definition kvol. -/
def kvol_spec_formula (ops : NumOps) (sun_zenith view_zenith relative_azimuth : ℚ) : ℚ :=
  let ts := deg2rad ops sun_zenith
  let tv := deg2rad ops view_zenith
  let ph := deg2rad ops relative_azimuth
  let cxi := ops.cos ts * ops.cos tv + ops.sin ts * ops.sin tv * ops.cos ph
  let xi := ops.arccos cxi
  (((ops.pi / 2 - xi) * cxi + ops.sin xi) / (ops.cos ts + ops.cos tv)) - ops.pi / 4

/-- Modelled from the spec: the per-band kernel weights fiso, fvol and fgeo live in
axioms.py, which is not among the sources; the spec fixes only that each band
carries three real weights, so a band's row of the table is an arbitrary triple. -/
structure BandCoefficients where
  fiso : ℚ
  fvol : ℚ
  fgeo : ℚ

/-- BRDF of brdf.py for one band: fiso + (fvol * kvol + fgeo * kgeo), the kernels
evaluated with the default br = 1 and hb = 2. -/
def brdf (ops : NumOps) (cf : BandCoefficients) (sun_zenith view_zenith relative_azimuth : ℚ) : ℚ :=
  cf.fiso + (cf.fvol * kvol ops sun_zenith view_zenith relative_azimuth
    + cf.fgeo * kgeo ops sun_zenith view_zenith relative_azimuth 1 2)

/-- c-factor of c_factor.py: brdf at view zenith forced to zero by multiplying it
with 0, divided by brdf at the observed view zenith. -/
def c_factor (ops : NumOps) (cf : BandCoefficients) (sun_zenith view_zenith relative_azimuth : ℚ) : ℚ :=
  brdf ops cf sun_zenith (view_zenith * 0) relative_azimuth
    / brdf ops cf sun_zenith view_zenith relative_azimuth

/-- Concrete primitives for evaluation: every transcendental collapses to a simple
rational function, which is enough to evaluate the structural theorems. -/
def evalOps : NumOps :=
  ⟨fun _ => 1, fun _ => 0, fun _ => 0, fun _ => 0, fun _ => 0, fun _ => 0, 0⟩

/-- Concrete coefficient row used for evaluation. -/
def evalCoeffs : BandCoefficients :=
  ⟨1, 0, 0⟩

/-! Per-pixel reflectance pipeline of nbar.py. -/

/-- Nodata masking of nbar.py: img.where(x larger than 0, other nan); a value not
strictly positive becomes NaN, modelled as none. -/
def mask_nodata (x : ℚ) : Option ℚ :=
  if 0 < x then some x else none

/-- Harmonization flag of nbar_SAFE: processing baseline at least 4.0. -/
def harmonize_flag (processing_baseline : ℚ) : Bool :=
  4 ≤ processing_baseline

/-- DN shift of nbar_SAFE: subtract 1000 when the harmonize flag is set; NaN
propagates through the subtraction. -/
def safe_harmonize (processing_baseline : ℚ) (img : Option ℚ) : Option ℚ :=
  if harmonize_flag processing_baseline then img.map (fun v => v - 1000) else img

/-- nbar_SAFE pixel value after masking and harmonization, before the c-factor
multiplication (source order: mask first, then shift). -/
def safe_premultiply (processing_baseline x : ℚ) : Option ℚ :=
  safe_harmonize processing_baseline (mask_nodata x)

/-- Per-timestep harmonization offset of nbar_stac: xr.where on the baseline,
giving -1000 when at least 4.0 and 0 otherwise. -/
def stac_harmonize_offset (processing_baseline : ℚ) : ℚ :=
  if 4 ≤ processing_baseline then -1000 else 0

/-- nbar_stac pixel value after masking and adding the harmonization offset,
before the c-factor multiplication (source order: mask first, then add). -/
def stac_premultiply (processing_baseline x : ℚ) : Option ℚ :=
  (mask_nodata x).map (fun v => v + stac_harmonize_offset processing_baseline)

/-! Time-series loop of nbar_stac. Each ordered catalog item either yields an
interpolated c-factor slice or raises the missing-angles ValueError; we model an
item by an Option: some c on success, none on the ValueError. -/

/-- Body of the enumerate loop of nbar_stac starting at index i: successes are
appended to c_array, failing indices are appended to exclude and one warning
naming the index is emitted. -/
def process_items_aux {α : Type} : Nat → List (Option α) → List α × List Nat × List Nat
  | _, [] => ([], [], [])
  | i, it :: rest =>
    let r := process_items_aux (i + 1) rest
    match it with
    | some c => (c :: r.1, r.2.1, r.2.2)
    | none => (r.1, i :: r.2.1, i :: r.2.2)

/-- The whole item loop of nbar_stac: (c_array, exclude, warning indices). -/
def process_items {α : Type} (items : List (Option α)) : List α × List Nat × List Nat :=
  process_items_aux 0 items

/-- np.delete over np.arange n: the indices below n that are not excluded,
in ascending order. -/
def np_delete (n : Nat) (exclude : List Nat) : List Nat :=
  (List.range n).filter (fun i => !decide (i ∈ exclude))

/-- nbar_stac after the loop: when any timestep was excluded, the reflectance
cube keeps only the non-excluded time positions; the c-factor cube is the
concatenation of the per-item successes; the warnings are returned as indices. -/
def nbar_stac_model {α β : Type} (cube : List β) (items : List (Option α)) :
    List β × List α × List Nat :=
  let r := process_items items
  let da := if 0 < r.2.1.length
    then (np_delete cube.length r.2.1).filterMap (fun i => cube[i]?)
    else cube
  (da, r.1, r.2.2)

/-- Indices of the failing items (those that raise), counted from offset i:
the specification's description of the dropped timesteps. -/
def noneIndicesFrom {α : Type} : Nat → List (Option α) → List Nat
  | _, [] => []
  | i, some _ :: rest => noneIndicesFrom (i + 1) rest
  | i, none :: rest => i :: noneIndicesFrom (i + 1) rest

/-- Indices of the succeeding items counted from offset i: the retained
timesteps, in original relative order. -/
def someIndicesFrom {α : Type} : Nat → List (Option α) → List Nat
  | _, [] => []
  | i, some _ :: rest => i :: someIndicesFrom (i + 1) rest
  | i, none :: rest => someIndicesFrom (i + 1) rest

/-- The specification's description of the surviving reflectance cube: the
timesteps whose item succeeded, in original relative order. -/
def keptCube {α β : Type} : List β → List (Option α) → List β
  | [], _ => []
  | _, [] => []
  | c :: cube, some _ :: items => c :: keptCube cube items
  | _ :: cube, none :: items => keptCube cube items

/-! Nearest-neighbor extrapolation of utils.py. A coarse grid is raveled to a
list of cells, each carrying its meshgrid coordinates and an optional value
(none models a NaN cell); a valid sample carries coordinates and a value. -/

/-- One raveled grid cell: coordinates and optional (NaN-able) value. -/
structure Cell where
  x : ℚ
  y : ℚ
  val : Option ℚ
deriving DecidableEq

/-- One valid (non-NaN) sample handed to the nearest-neighbor interpolator. -/
structure Sample where
  x : ℚ
  y : ℚ
  v : ℚ
deriving DecidableEq

/-- Squared Euclidean distance between two coordinate pairs. -/
def dist2 (px py qx qy : ℚ) : ℚ :=
  (px - qx) * (px - qx) + (py - qy) * (py - qy)

/-- The valid samples of a raveled grid: cells whose value is present, with
their coordinates, in ravel order. -/
def validSamples (g : List Cell) : List Sample :=
  g.filterMap (fun c => c.val.map (fun v => Sample.mk c.x c.y v))

/-- Nearest valid sample to a query point: the first sample of the list
attaining the minimal squared Euclidean distance (none on an empty list).
This models the scipy NearestNDInterpolator query at one point. -/
def selectNearest (px py : ℚ) : List Sample → Option Sample
  | [] => none
  | p :: ps =>
    match selectNearest px py ps with
    | none => some p
    | some q => if dist2 px py q.x q.y < dist2 px py p.x p.y then some q else some p

/-- utils.py _extrapolate_data_array: build the interpolator from the valid
cells and re-evaluate it at every cell coordinate, replacing all values. -/
def extrapolate_data_array (g : List Cell) : List Cell :=
  let valid := validSamples g
  g.map (fun c => Cell.mk c.x c.y ((selectNearest c.x c.y valid).map (fun s => s.v)))

/-- utils.py _extrapolate_c_factor: extrapolate every band independently and
concatenate the results back along the band dimension, preserving band order. -/
def extrapolate_c_factor (bands : List (List Cell)) : List (List Cell) :=
  bands.map extrapolate_data_array

/-! Angle extraction of metadata.py. A detector observation is recorded by the
band index it reports and its payload (the pair of Zenith and Azimuth grids,
abstracted); the numeric aggregation is irrelevant to the stacking claims. -/

/-- Zero-padded two-digit decimal tag of metadata.py band names. -/
def pad2 (x : Nat) : String :=
  let s := "0" ++ toString x
  s.drop (s.length - 2)

/-- The 13 canonical Sentinel-2 band names of metadata.py: B01 through B12 with
B8A inserted at position 8 (after B08). -/
def band_names : List String :=
  (((List.range' 1 12).map (fun x => "B" ++ pad2 x))).insertIdx 8 "B8A"

/-- Append one observation to the entry of the given key, leaving every other
entry and the key order untouched (Python dict append at an existing key). -/
def dict_append {α : Type} (k : String) (v : α) : List (String × List α) → List (String × List α)
  | [] => []
  | (k₀, vs) :: rest =>
    if k₀ = k then (k₀, vs ++ [v]) :: rest else (k₀, vs) :: dict_append k v rest

/-- The initial bands dictionary of angles_from_metadata: Sun first, then the
13 canonical band names, every entry an empty observation list. -/
def init_bands_dict {α : Type} : List (String × List α) :=
  ("Sun" :: band_names).map (fun k => (k, ([] : List α)))

/-- The detector loop of angles_from_metadata: each detector observation is
appended to the entry of the band its band index designates. -/
def process_detectors {α : Type} (dets : List (Nat × α)) : List (String × List α) :=
  dets.foldl (fun d det => dict_append (band_names.getD det.1 "") det.2 d) init_bands_dict

/-- The bands dictionary after the detector loop and the single unconditional
Sun observation append. -/
def bands_dict_final {α : Type} (dets : List (Nat × α)) (sun : α) : List (String × List α) :=
  dict_append "Sun" sun (process_detectors dets)

/-- Stacking step of angles_from_metadata: the per-band nanmean of an empty
observation list is a bare scalar while a nonempty list averages to a full
grid, so the stacked array is homogeneous exactly when every entry is
nonempty (the Sun entry always is); a ragged stack raises the ValueError with
the fixed message of metadata.py. -/
def angles_from_metadata_model {α : Type} (dets : List (Nat × α)) (sun : α) :
    Except String (List (String × List α)) :=
  if (bands_dict_final dets sun).all (fun e => !e.2.isEmpty)
    then Except.ok (bands_dict_final dets sun)
    else Except.error "Not all bands include angles values."

/-- Detector set covering every canonical band: one observation per band index. -/
def dets_all : List (Nat × Unit) :=
  (List.range 13).map (fun i => (i, ()))

/-- Detector set missing exactly band B8A (band index 8). -/
def dets_no_B8A : List (Nat × Unit) :=
  ((List.range 13).filter (fun i => !(i == 8))).map (fun i => (i, ()))

/-- Detector set missing exactly band B02 (band index 1). -/
def dets_no_B02 : List (Nat × Unit) :=
  ((List.range 13).filter (fun i => !(i == 1))).map (fun i => (i, ()))

/-- Concrete one-band coarse grid used to evaluate the extrapolation theorem. -/
def bands₀ : List (List Cell) :=
  [[Cell.mk 0 0 (some 5), Cell.mk 1 0 none, Cell.mk 0 1 (some 7)]]

/-! Theorems. -/

/-- C1: for every choice of kernel primitives, coefficient row, sun zenith and
relative azimuth, the c-factor at view zenith identically zero equals exactly 1
for every band and cell, because the nadir-view numerator coincides with the
denominator; the only proviso is that the shared BRDF value is nonzero, since
a zero denominator has no well-defined ratio. -/
theorem c_factor_nadir_eq_one (ops : NumOps) (cf : BandCoefficients)
    (sun_zenith relative_azimuth : ℚ)
    (h : brdf ops cf sun_zenith 0 relative_azimuth ≠ 0) :
    c_factor ops cf sun_zenith 0 relative_azimuth = 1 := by
  have h0 : (0 : ℚ) * 0 = 0 := mul_zero 0
  simp only [c_factor, h0]
  exact div_self h

/-- Witness for C1 at concrete primitives, coefficients and angles. -/
theorem c_factor_nadir_eq_one_witness :
    brdf evalOps evalCoeffs 30 0 45 ≠ 0 ∧ c_factor evalOps evalCoeffs 30 0 45 = 1 := by
  have h : brdf evalOps evalCoeffs 30 0 45 ≠ 0 := by
    norm_num [brdf, evalOps, evalCoeffs, kvol, kgeo, kgeo_cos_t, kgeo_cos_t_raw, deg2rad]
  exact ⟨h, c_factor_nadir_eq_one evalOps evalCoeffs 30 45 h⟩

/-- C8: the source kvol agrees with the Ross-Thick formula exactly as worded in
the specification, for every choice of primitives and all angle inputs. -/
theorem kvol_matches_spec_formula (ops : NumOps) (sun_zenith view_zenith relative_azimuth : ℚ) :
    kvol ops sun_zenith view_zenith relative_azimuth
      = kvol_spec_formula ops sun_zenith view_zenith relative_azimuth := rfl

/-- C4: the overlap-angle cosine handed to arccos inside kgeo is clamped into
the closed interval from -1 to 1, for every choice of primitives and all
inputs, so arccos never receives an out-of-domain argument from that step. -/
theorem kgeo_cos_t_clamped_in_unit_interval (ops : NumOps)
    (sun_zenith view_zenith relative_azimuth br hb : ℚ) :
    -1 ≤ kgeo_cos_t ops sun_zenith view_zenith relative_azimuth br hb ∧
      kgeo_cos_t ops sun_zenith view_zenith relative_azimuth br hb ≤ 1 := by
  unfold kgeo_cos_t
  dsimp only
  split_ifs <;> constructor <;> linarith

/-- C2: masking-then-harmonization applies the -1000 digital-number shift to a
positive pixel exactly when the processing baseline is at least 4.0, the
catalog path agrees with the SAFE path, baseline 3.99 leaves values unshifted,
baseline 4.00 shifts by -1000, and a constant DN 2000 image at baseline 4.1 has
pre-multiply value 1000. -/
theorem harmonization_threshold (pb x : ℚ) (hx : 0 < x) :
    (safe_premultiply pb x = some (x - 1000) ↔ 4 ≤ pb) ∧
    (safe_premultiply pb x = some x ↔ ¬ 4 ≤ pb) ∧
    stac_premultiply pb x = safe_premultiply pb x ∧
    safe_premultiply (399 / 100) x = some x ∧
    safe_premultiply 4 x = some (x - 1000) ∧
    stac_premultiply (41 / 10) 2000 = some 1000 := by
  have hmask : mask_nodata x = some x := by simp [mask_nodata, hx]
  have hsafe : ∀ q : ℚ, safe_premultiply q x
      = if 4 ≤ q then some (x - 1000) else some x := by
    intro q
    by_cases hq : 4 ≤ q <;>
      simp [safe_premultiply, safe_harmonize, harmonize_flag, hmask, hq]
  have hstac : ∀ q : ℚ, stac_premultiply q x
      = if 4 ≤ q then some (x - 1000) else some x := by
    intro q
    by_cases hq : 4 ≤ q <;>
      simp [stac_premultiply, stac_harmonize_offset, hmask, hq] <;> ring_nf
  refine ⟨?_, ?_, ?_, ?_, ?_, ?_⟩
  · rw [hsafe]
    by_cases hq : 4 ≤ pb
    · simp [hq]
    · rw [if_neg hq]
      constructor
      · intro hcontra
        have hx2 := Option.some_injective ℚ hcontra
        exact absurd rfl (by intro _; linarith : ¬ (x : ℚ) = x)
      · intro h4
        exact (hq h4).elim
  · rw [hsafe]
    by_cases hq : 4 ≤ pb
    · rw [if_pos hq]
      constructor
      · intro hcontra
        have hx2 := Option.some_injective ℚ hcontra
        exact absurd hq (by intro _; linarith : ¬ 4 ≤ pb)
      · intro hcontra
        exact (hcontra hq).elim
    · simp [hq]
  · rw [hsafe, hstac]
  · rw [hsafe]
    norm_num
  · rw [hsafe]
    norm_num
  · norm_num [stac_premultiply, stac_harmonize_offset, mask_nodata]

/-- Witness for C2 at baseline 4.1 and DN 2000. -/
theorem harmonization_threshold_witness :
    (0 : ℚ) < 2000 ∧ stac_premultiply (41 / 10) 2000 = some 1000 :=
  ⟨by norm_num, (harmonization_threshold (41 / 10) 2000 (by norm_num)).2.2.2.2.2⟩

/-- C10: every non-positive pixel value is masked to NaN (none), the masking
happens before the harmonization step in both the SAFE and the catalog paths,
and therefore a nodata pixel stays NaN after harmonization — it never becomes
-1000 — for every processing baseline. -/
theorem nodata_masked_before_harmonization (pb x : ℚ) (hx : x ≤ 0) :
    mask_nodata x = none ∧ safe_premultiply pb x = none ∧ stac_premultiply pb x = none := by
  have hmask : mask_nodata x = none := by
    simp [mask_nodata, not_lt.mpr hx]
  refine ⟨hmask, ?_, ?_⟩
  · by_cases hq : 4 ≤ pb <;>
      simp [safe_premultiply, safe_harmonize, harmonize_flag, hmask, hq]
  · simp [stac_premultiply, hmask]

/-- Witness for C10 at a negative pixel value and baseline 5. -/
theorem nodata_masked_before_harmonization_witness :
    (-7 : ℚ) ≤ 0 ∧ (mask_nodata (-7) = none ∧ safe_premultiply 5 (-7) = none ∧
      stac_premultiply 5 (-7) = none) :=
  ⟨by norm_num, nodata_masked_before_harmonization 5 (-7) (by norm_num)⟩

/-- Appending an observation to one entry never changes the key sequence. -/
theorem dict_append_keys {α : Type} (k : String) (v : α) (d : List (String × List α)) :
    (dict_append k v d).map Prod.fst = d.map Prod.fst := by
  induction d with
  | nil => rfl
  | cons e rest ih =>
    obtain ⟨k₀, vs⟩ := e
    by_cases hk : k₀ = k <;> simp [dict_append, hk, ih]

/-- The detector fold never changes the key sequence of its accumulator. -/
theorem foldl_dict_append_keys {α : Type} (dets : List (Nat × α)) (acc : List (String × List α)) :
    (dets.foldl (fun d det => dict_append (band_names.getD det.1 "") det.2 d) acc).map Prod.fst
      = acc.map Prod.fst := by
  induction dets generalizing acc with
  | nil => rfl
  | cons det rest ih => rw [List.foldl_cons, ih, dict_append_keys]

/-- Keys of the initial bands dictionary: Sun first, then the canonical bands. -/
theorem init_bands_dict_keys {α : Type} :
    (init_bands_dict (α := α)).map Prod.fst = "Sun" :: band_names := by
  unfold init_bands_dict
  rw [List.map_map]
  have hcomp : (Prod.fst ∘ fun k => (k, ([] : List α))) = (id : String → String) := rfl
  rw [hcomp, List.map_id]

/-- C6: the band axis of the stacked angle grid is always Sun followed by the
13 canonical band names B01 through B08, B8A, then B09 through B12, for every
detector observation order, on the final dictionary directly and on every
grid the extraction returns. -/
theorem band_axis_canonical {α : Type} (dets : List (Nat × α)) (sun : α) :
    (bands_dict_final dets sun).map Prod.fst = "Sun" :: band_names ∧
    (∀ g, angles_from_metadata_model dets sun = Except.ok g →
      g.map Prod.fst = "Sun" :: band_names) ∧
    "Sun" :: band_names = ["Sun", "B01", "B02", "B03", "B04", "B05", "B06", "B07",
      "B08", "B8A", "B09", "B10", "B11", "B12"] := by
  have hkeys : (bands_dict_final dets sun).map Prod.fst = "Sun" :: band_names := by
    unfold bands_dict_final process_detectors
    rw [dict_append_keys, foldl_dict_append_keys, init_bands_dict_keys]
  refine ⟨hkeys, ?_, by decide⟩
  intro g hg
  unfold angles_from_metadata_model at hg
  by_cases hc : (bands_dict_final dets sun).all (fun e => !e.2.isEmpty)
  · rw [if_pos hc] at hg
    obtain rfl : bands_dict_final dets sun = g := by
      injection hg
    exact hkeys
  · rw [if_neg hc] at hg
    exact absurd hg (by simp)

/-- Witness for C6 on a full detector set covering every band. -/
theorem band_axis_canonical_witness :
    angles_from_metadata_model dets_all () = Except.ok (bands_dict_final dets_all ()) ∧
    (bands_dict_final dets_all ()).map Prod.fst = "Sun" :: band_names := by
  have hok : angles_from_metadata_model dets_all ()
      = Except.ok (bands_dict_final dets_all ()) := rfl
  exact ⟨hok, (band_axis_canonical dets_all ()).2.1 (bands_dict_final dets_all ()) hok⟩

/-- If an entry holds an empty list and the appended key differs from its key,
the entry still holds an empty list afterwards. -/
theorem dict_append_preserves_empty {α : Type} (name k : String) (v : α)
    (d : List (String × List α)) (hne : k ≠ name)
    (hmem : (name, ([] : List α)) ∈ d) :
    (name, ([] : List α)) ∈ dict_append k v d := by
  induction d with
  | nil => exact absurd hmem (List.not_mem_nil _)
  | cons e rest ih =>
    obtain ⟨k₀, vs⟩ := e
    rcases List.mem_cons.mp hmem with hhead | htail
    · have hk₀ : k₀ = name := congrArg Prod.fst hhead.symm
      have : ¬ k₀ = k := fun hkk => hne (hkk ▸ hk₀)
      simp only [dict_append, if_neg this]
      exact List.mem_cons.mpr (Or.inl hhead)
    · by_cases hkk : k₀ = k
      · simp only [dict_append, if_pos hkk]
        exact List.mem_cons.mpr (Or.inr htail)
      · simp only [dict_append, if_neg hkk]
        exact List.mem_cons.mpr (Or.inr (ih htail))

/-- If no detector designates the given band name, its entry stays empty
through the whole detector fold. -/
theorem foldl_preserves_empty {α : Type} (name : String) (dets : List (Nat × α))
    (acc : List (String × List α))
    (hnd : ∀ d ∈ dets, band_names.getD d.1 "" ≠ name)
    (hmem : (name, ([] : List α)) ∈ acc) :
    (name, ([] : List α)) ∈
      dets.foldl (fun d det => dict_append (band_names.getD det.1 "") det.2 d) acc := by
  induction dets generalizing acc with
  | nil => exact hmem
  | cons det rest ih =>
    rw [List.foldl_cons]
    refine ih _ (fun d hd => hnd d (List.mem_cons.mpr (Or.inr hd))) ?_
    exact dict_append_preserves_empty name _ det.2 acc
      (hnd det (List.mem_cons.mpr (Or.inl rfl))) hmem

/-- C7 amended: when some canonical band receives no detector observation at
all, angle extraction fails with the ValueError carrying the fixed message of
metadata.py; as the counterexample shows, that message does not name the
missing band. -/
theorem angles_missing_band_raises {α : Type} (dets : List (Nat × α)) (sun : α)
    (h : ∃ name ∈ band_names, ∀ d ∈ dets, band_names.getD d.1 "" ≠ name) :
    angles_from_metadata_model dets sun
      = Except.error "Not all bands include angles values." := by
  obtain ⟨name, hname, hnd⟩ := h
  have hsun : name ≠ "Sun" := by
    intro hcontra
    exact absurd (hcontra ▸ hname) (by decide)
  have hinit : (name, ([] : List α)) ∈ init_bands_dict := by
    unfold init_bands_dict
    exact List.mem_map.mpr ⟨name, List.mem_cons.mpr (Or.inr hname), rfl⟩
  have hfold : (name, ([] : List α)) ∈ process_detectors dets :=
    foldl_preserves_empty name dets init_bands_dict hnd hinit
  have hfinal : (name, ([] : List α)) ∈ bands_dict_final dets sun :=
    dict_append_preserves_empty name "Sun" sun (process_detectors dets)
      (fun hcontra => hsun hcontra.symm) hfold
  have hall : ¬ (bands_dict_final dets sun).all (fun e => !e.2.isEmpty) = true := by
    intro hcontra
    have := List.all_eq_true.mp hcontra _ hfinal
    simp at this
  unfold angles_from_metadata_model
  rw [if_neg hall]

/-- Witness for the amended C7 on a detector set missing band B02. -/
theorem angles_missing_band_raises_witness :
    (∃ name ∈ band_names, ∀ d ∈ dets_no_B02, band_names.getD d.1 "" ≠ name) ∧
    angles_from_metadata_model dets_no_B02 ()
      = Except.error "Not all bands include angles values." := by
  have h : ∃ name ∈ band_names, ∀ d ∈ dets_no_B02, band_names.getD d.1 "" ≠ name := by
    decide
  exact ⟨h, angles_missing_band_raises dets_no_B02 () h⟩

/-- C7 counterexample: two inputs missing different bands (B8A and B02) raise
with the very same fixed message, and the name B8A does not occur in it, so the
error does not name the missing band. -/
theorem angles_error_message_counterexample :
    angles_from_metadata_model dets_no_B8A ()
      = Except.error "Not all bands include angles values." ∧
    angles_from_metadata_model dets_no_B02 ()
      = angles_from_metadata_model dets_no_B8A () ∧
    ¬ ("B8A".toList <:+: ("Not all bands include angles values.").toList) :=
  ⟨rfl, rfl, by decide⟩

/-- Shifting the start index of the failing-index scan adds one to every index. -/
theorem noneIndicesFrom_succ {α : Type} (items : List (Option α)) (i : Nat) :
    noneIndicesFrom (i + 1) items = (noneIndicesFrom i items).map Nat.succ := by
  induction items generalizing i with
  | nil => rfl
  | cons it rest ih =>
    cases it <;> simp [noneIndicesFrom, ih (i + 1)]

/-- Shifting the start index of the success-index scan adds one to every index. -/
theorem someIndicesFrom_succ {α : Type} (items : List (Option α)) (i : Nat) :
    someIndicesFrom (i + 1) items = (someIndicesFrom i items).map Nat.succ := by
  induction items generalizing i with
  | nil => rfl
  | cons it rest ih =>
    cases it <;> simp [someIndicesFrom, ih (i + 1)]

/-- The c_array built by the item loop is the list of successes in order. -/
theorem process_items_aux_c {α : Type} (items : List (Option α)) (i : Nat) :
    (process_items_aux i items).1 = items.filterMap id := by
  induction items generalizing i with
  | nil => rfl
  | cons it rest ih =>
    cases it <;> simp [process_items_aux, ih (i + 1)]

/-- The exclude list built by the item loop is the failing-index list. -/
theorem process_items_aux_exclude {α : Type} (items : List (Option α)) (i : Nat) :
    (process_items_aux i items).2.1 = noneIndicesFrom i items := by
  induction items generalizing i with
  | nil => rfl
  | cons it rest ih =>
    cases it <;> simp [process_items_aux, noneIndicesFrom, ih (i + 1)]

/-- The warnings emitted by the item loop name the failing indices, in order. -/
theorem process_items_aux_warn {α : Type} (items : List (Option α)) (i : Nat) :
    (process_items_aux i items).2.2 = noneIndicesFrom i items := by
  induction items generalizing i with
  | nil => rfl
  | cons it rest ih =>
    cases it <;> simp [process_items_aux, noneIndicesFrom, ih (i + 1)]

/-- np.delete of the failing indices from np.arange yields exactly the
succeeding indices, in ascending order. -/
theorem np_delete_noneIndices {α : Type} (items : List (Option α)) :
    np_delete items.length (noneIndicesFrom 0 items) = someIndicesFrom 0 items := by
  induction items with
  | nil => rfl
  | cons it rest ih =>
    have hrange : List.range (rest.length + 1)
        = 0 :: (List.range rest.length).map Nat.succ := List.range_succ_eq_map rest.length
    cases it with
    | some a =>
      have hexcl : noneIndicesFrom 0 (some a :: rest)
          = (noneIndicesFrom 0 rest).map Nat.succ := by
        simp [noneIndicesFrom, noneIndicesFrom_succ]
      unfold np_delete
      rw [List.length_cons, hrange, hexcl]
      rw [List.filter_cons]
      have h0 : (0 ∉ (noneIndicesFrom 0 rest).map Nat.succ) := by
        simp [List.mem_map]
      rw [if_pos (by simpa using h0)]
      rw [List.filter_map]
      have hpred : ((fun i => !decide (i ∈ (noneIndicesFrom 0 rest).map Nat.succ))
            ∘ Nat.succ)
          = fun i => !decide (i ∈ noneIndicesFrom 0 rest) := by
        funext i
        simp [Function.comp, List.mem_map, Nat.succ_injective.eq_iff]
      rw [hpred]
      have := ih
      unfold np_delete at this
      rw [this]
      simp [someIndicesFrom, someIndicesFrom_succ]
    | none =>
      have hexcl : noneIndicesFrom 0 (none :: rest)
          = 0 :: (noneIndicesFrom 0 rest).map Nat.succ := by
        simp [noneIndicesFrom, noneIndicesFrom_succ]
      unfold np_delete
      rw [List.length_cons, hrange, hexcl]
      rw [List.filter_cons]
      rw [if_neg (by simp)]
      rw [List.filter_map]
      have hpred : ((fun i => !decide (i ∈ 0 :: (noneIndicesFrom 0 rest).map Nat.succ))
            ∘ Nat.succ)
          = fun i => !decide (i ∈ noneIndicesFrom 0 rest) := by
        funext i
        simp [Function.comp, List.mem_map, Nat.succ_injective.eq_iff]
      rw [hpred]
      have := ih
      unfold np_delete at this
      rw [this]
      simp [someIndicesFrom, someIndicesFrom_succ]

/-- Reading the reflectance cube at the succeeding indices gives exactly the
surviving timesteps, in original relative order. -/
theorem someIndices_filterMap_cube {α β : Type} (items : List (Option α)) (cube : List β)
    (h : items.length = cube.length) :
    (someIndicesFrom 0 items).filterMap (fun i => cube[i]?) = keptCube cube items := by
  induction items generalizing cube with
  | nil =>
    cases cube with
    | nil => rfl
    | cons c rest => simp at h
  | cons it rest ih =>
    cases cube with
    | nil => simp at h
    | cons c cube₀ =>
      have hlen : rest.length = cube₀.length := by
        simpa using h
      cases it with
      | some a =>
        simp only [someIndicesFrom, someIndicesFrom_succ, keptCube]
        rw [List.filterMap_cons]
        simp only [List.getElem?_cons_zero]
        rw [List.filterMap_map]
        have hpred : ((fun i => (c :: cube₀)[i]?) ∘ Nat.succ)
            = fun i => cube₀[i]? := by
          funext i
          simp [Function.comp]
        rw [hpred, ih cube₀ hlen]
      | none =>
        simp only [someIndicesFrom, someIndicesFrom_succ, keptCube]
        rw [List.filterMap_map]
        have hpred : ((fun i => (c :: cube₀)[i]?) ∘ Nat.succ)
            = fun i => cube₀[i]? := by
          funext i
          simp [Function.comp]
        rw [hpred, ih cube₀ hlen]

/-- When no timestep fails, every item is a success and the surviving cube is
the whole cube. -/
theorem keptCube_of_no_failure {α β : Type} (items : List (Option α)) (cube : List β)
    (h : items.length = cube.length) (hnone : noneIndicesFrom 0 items = []) :
    keptCube cube items = cube := by
  induction items generalizing cube with
  | nil =>
    cases cube with
    | nil => rfl
    | cons c rest => simp at h
  | cons it rest ih =>
    cases cube with
    | nil => simp at h
    | cons c cube₀ =>
      have hlen : rest.length = cube₀.length := by
        simpa using h
      cases it with
      | some a =>
        have hr : noneIndicesFrom 0 rest = [] := by
          have := hnone
          simp only [noneIndicesFrom, noneIndicesFrom_succ] at this
          exact List.map_eq_nil.mp this
        simp [keptCube, ih cube₀ hlen hr]
      | none =>
        simp [noneIndicesFrom] at hnone

/-- C3: in the time-series path, the output cube consists of exactly the
timesteps whose c-factor derivation succeeded, in their original relative
order, and the emitted warnings name exactly the failing timestep indices. -/
theorem timeseries_drop_semantics {α β : Type} (cube : List β) (items : List (Option α))
    (h : items.length = cube.length) :
    (nbar_stac_model cube items).1 = keptCube cube items ∧
    (nbar_stac_model cube items).2.2 = noneIndicesFrom 0 items := by
  simp only [nbar_stac_model, process_items]
  refine ⟨?_, by simp [process_items_aux_warn]⟩
  rw [process_items_aux_exclude]
  by_cases hex : 0 < (noneIndicesFrom 0 items).length
  · rw [if_pos hex, ← h, np_delete_noneIndices, someIndices_filterMap_cube items cube h]
  · rw [if_neg hex]
    have hnone : noneIndicesFrom 0 items = [] := by
      cases hn : noneIndicesFrom 0 items with
      | nil => rfl
      | cons a l => rw [hn] at hex; simp at hex
    rw [keptCube_of_no_failure items cube h hnone]

/-- Witness for C3: three timesteps with the middle one failing keep timesteps
one and three in order and emit one warning naming index 1. -/
theorem timeseries_drop_semantics_witness :
    ([some 10, none, some 30] : List (Option Nat)).length = ([1, 2, 3] : List Nat).length ∧
    (nbar_stac_model [1, 2, 3] [some 10, none, some (30 : Nat)]).1
      = keptCube [1, 2, 3] [some 10, none, some (30 : Nat)] ∧
    (nbar_stac_model [1, 2, 3] [some 10, none, some (30 : Nat)]).2.2
      = noneIndicesFrom 0 [some 10, none, some (30 : Nat)] ∧
    keptCube [1, 2, 3] [some 10, none, some (30 : Nat)] = [1, 3] ∧
    noneIndicesFrom 0 [some 10, none, some (30 : Nat)] = [1] := by
  refine ⟨rfl, ?_, ?_, rfl, rfl⟩
  · exact (timeseries_drop_semantics ([1, 2, 3] : List Nat)
      [some 10, none, some (30 : Nat)] rfl).1
  · exact (timeseries_drop_semantics ([1, 2, 3] : List Nat)
      [some 10, none, some (30 : Nat)] rfl).2

/-- Reading the items at the succeeding indices gives exactly the successes,
in order. -/
theorem someIndices_filterMap_items {α : Type} (items : List (Option α)) :
    (someIndicesFrom 0 items).filterMap (fun i => (items[i]?).bind id)
      = items.filterMap id := by
  induction items with
  | nil => rfl
  | cons it rest ih =>
    cases it with
    | some a =>
      have hshift : someIndicesFrom 0 (some a :: rest)
          = 0 :: (someIndicesFrom 0 rest).map Nat.succ := by
        simp [someIndicesFrom, someIndicesFrom_succ]
      have hpred : ((fun i => ((some a :: rest)[i]?).bind id) ∘ Nat.succ)
          = fun i => (rest[i]?).bind id := by
        funext i
        simp [Function.comp]
      rw [hshift, List.filterMap_cons, List.filterMap_map, hpred, ih]
      simp
    | none =>
      have hshift : someIndicesFrom 0 (none :: rest)
          = (someIndicesFrom 0 rest).map Nat.succ := by
        simp [someIndicesFrom, someIndicesFrom_succ]
      have hpred : ((fun i => ((none :: rest)[i]?).bind id) ∘ Nat.succ)
          = fun i => (rest[i]?).bind id := by
        funext i
        simp [Function.comp]
      rw [hshift, List.filterMap_map, hpred, ih]
      simp

/-- C9: after the drop, the retained reflectance timesteps and the concatenated
c-factor slices are indexed by the same ascending list of original timestep
positions: the k-th c-factor slice was derived from the item of the k-th
retained timestep. -/
theorem cfactor_time_alignment {α β : Type} (cube : List β) (items : List (Option α))
    (h : items.length = cube.length) :
    (nbar_stac_model cube items).1
      = (someIndicesFrom 0 items).filterMap (fun i => cube[i]?) ∧
    (nbar_stac_model cube items).2.1
      = (someIndicesFrom 0 items).filterMap (fun i => (items[i]?).bind id) := by
  constructor
  · simp only [nbar_stac_model, process_items]
    rw [process_items_aux_exclude]
    by_cases hex : 0 < (noneIndicesFrom 0 items).length
    · simp only [if_pos hex]
      rw [← h, np_delete_noneIndices]
    · simp only [if_neg hex]
      have hnone : noneIndicesFrom 0 items = [] := by
        cases hn : noneIndicesFrom 0 items with
        | nil => rfl
        | cons a l => rw [hn] at hex; simp at hex
      rw [someIndices_filterMap_cube items cube h,
        keptCube_of_no_failure items cube h hnone]
  · simp only [nbar_stac_model, process_items]
    rw [someIndices_filterMap_items]
    simp [process_items_aux_c]

/-- Witness for C9 on four timesteps with the first and last failing. -/
theorem cfactor_time_alignment_witness :
    ([none, some 1, some 2, none] : List (Option Nat)).length
      = ([5, 6, 7, 8] : List Nat).length ∧
    (nbar_stac_model [5, 6, 7, 8] [none, some 1, some 2, (none : Option Nat)]).1
      = (someIndicesFrom 0 [none, some 1, some 2, (none : Option Nat)]).filterMap
          (fun i => ([5, 6, 7, 8] : List Nat)[i]?) ∧
    (nbar_stac_model [5, 6, 7, 8] [none, some 1, some 2, (none : Option Nat)]).2.1
      = (someIndicesFrom 0 [none, some 1, some 2, (none : Option Nat)]).filterMap
          (fun i => (([none, some 1, some 2, (none : Option Nat)] : List (Option Nat))[i]?).bind id) := by
  refine ⟨rfl, ?_, ?_⟩
  · exact (cfactor_time_alignment ([5, 6, 7, 8] : List Nat)
      [none, some 1, some 2, (none : Option Nat)] rfl).1
  · exact (cfactor_time_alignment ([5, 6, 7, 8] : List Nat)
      [none, some 1, some 2, (none : Option Nat)] rfl).2

/-- Squared distances are nonnegative. -/
theorem dist2_nonneg (px py qx qy : ℚ) : 0 ≤ dist2 px py qx qy := by
  unfold dist2
  nlinarith [mul_self_nonneg (px - qx), mul_self_nonneg (py - qy)]

/-- The squared distance from a point to itself is zero. -/
theorem dist2_self (px py : ℚ) : dist2 px py px py = 0 := by
  unfold dist2
  ring

/-- A zero squared distance forces equal coordinates. -/
theorem dist2_eq_zero_iff (px py qx qy : ℚ) :
    dist2 px py qx qy = 0 ↔ px = qx ∧ py = qy := by
  unfold dist2
  constructor
  · intro h
    have h1 : (px - qx) * (px - qx) = 0 := by
      nlinarith [mul_self_nonneg (px - qx), mul_self_nonneg (py - qy)]
    have h2 : (py - qy) * (py - qy) = 0 := by
      nlinarith [mul_self_nonneg (px - qx), mul_self_nonneg (py - qy)]
    constructor
    · have := mul_self_eq_zero.mp h1
      linarith
    · have := mul_self_eq_zero.mp h2
      linarith
  · rintro ⟨rfl, rfl⟩
    ring

/-- The nearest-neighbor query answers none only on an empty sample list. -/
theorem selectNearest_eq_none (px py : ℚ) (l : List Sample)
    (h : selectNearest px py l = none) : l = [] := by
  cases l with
  | nil => rfl
  | cons p ps =>
    exfalso
    simp only [selectNearest] at h
    cases hrec : selectNearest px py ps with
    | none => rw [hrec] at h; simp at h
    | some q =>
      rw [hrec] at h
      by_cases hd : dist2 px py q.x q.y < dist2 px py p.x p.y <;> simp [hd] at h

/-- The nearest-neighbor query answers on every nonempty sample list. -/
theorem selectNearest_isSome (px py : ℚ) (l : List Sample) (hl : l ≠ []) :
    (selectNearest px py l).isSome := by
  cases hsel : selectNearest px py l with
  | none => exact absurd (selectNearest_eq_none px py l hsel) hl
  | some s => rfl

/-- The chosen nearest sample belongs to the sample list. -/
theorem selectNearest_mem (px py : ℚ) (l : List Sample) :
    ∀ s : Sample, selectNearest px py l = some s → s ∈ l := by
  induction l with
  | nil => intro s h; simp [selectNearest] at h
  | cons p ps ih =>
    intro s h
    simp only [selectNearest] at h
    cases hrec : selectNearest px py ps with
    | none =>
      rw [hrec] at h
      simp only [Option.some.injEq] at h
      rw [← h]
      exact List.mem_cons_self p ps
    | some q =>
      rw [hrec] at h
      dsimp only at h
      by_cases hd : dist2 px py q.x q.y < dist2 px py p.x p.y
      · rw [if_pos hd] at h
        simp only [Option.some.injEq] at h
        rw [← h]
        exact List.mem_cons_of_mem p (ih q hrec)
      · rw [if_neg hd] at h
        simp only [Option.some.injEq] at h
        rw [← h]
        exact List.mem_cons_self p ps

/-- The chosen nearest sample minimizes the squared distance over the list. -/
theorem selectNearest_min (px py : ℚ) (l : List Sample) :
    ∀ s : Sample, selectNearest px py l = some s →
      ∀ t ∈ l, dist2 px py s.x s.y ≤ dist2 px py t.x t.y := by
  induction l with
  | nil => intro s h; simp [selectNearest] at h
  | cons p ps ih =>
    intro s h t ht
    simp only [selectNearest] at h
    cases hrec : selectNearest px py ps with
    | none =>
      have hps : ps = [] := selectNearest_eq_none px py ps hrec
      rw [hrec] at h
      simp only [Option.some.injEq] at h
      subst hps
      rcases List.mem_cons.mp ht with rfl | hmem
      · rw [← h]
      · exact absurd hmem (List.not_mem_nil t)
    | some q =>
      rw [hrec] at h
      dsimp only at h
      by_cases hd : dist2 px py q.x q.y < dist2 px py p.x p.y
      · rw [if_pos hd] at h
        simp only [Option.some.injEq] at h
        rw [← h]
        rcases List.mem_cons.mp ht with rfl | hmem
        · exact le_of_lt hd
        · exact ih q hrec t hmem
      · rw [if_neg hd] at h
        simp only [Option.some.injEq] at h
        rw [← h]
        rcases List.mem_cons.mp ht with rfl | hmem
        · exact le_refl _
        · exact le_trans (not_lt.mp hd) (ih q hrec t hmem)

/-- A cell with a present value contributes the corresponding sample. -/
theorem validSamples_mem_of_cell {g : List Cell} {c : Cell} {v : ℚ}
    (hc : c ∈ g) (hv : c.val = some v) : Sample.mk c.x c.y v ∈ validSamples g := by
  unfold validSamples
  refine List.mem_filterMap.mpr ⟨c, hc, ?_⟩
  rw [hv]
  rfl

/-- Every valid sample originates in a cell with the same coordinates and a
present value. -/
theorem validSamples_src {g : List Cell} {s : Sample} (hs : s ∈ validSamples g) :
    ∃ c ∈ g, c.x = s.x ∧ c.y = s.y ∧ c.val = some s.v := by
  unfold validSamples at hs
  obtain ⟨c, hc, heq⟩ := List.mem_filterMap.mp hs
  cases hval : c.val with
  | none => rw [hval] at heq; simp at heq
  | some w =>
    rw [hval] at heq
    simp only [Option.map_some', Option.some.injEq] at heq
    refine ⟨c, hc, ?_, ?_, ?_⟩
    · rw [← heq]
    · rw [← heq]
    · rw [hval, ← heq]

/-- Two cells of a coordinate-injective grid sharing both coordinates are the
same cell. -/
theorem mem_eq_of_coords {b : List Cell}
    (hinj : List.Pairwise (fun c d => c.x ≠ d.x ∨ c.y ≠ d.y) b)
    {c d : Cell} (hc : c ∈ b) (hd : d ∈ b) (hx : c.x = d.x) (hy : c.y = d.y) :
    c = d := by
  induction b with
  | nil => exact absurd hc (List.not_mem_nil c)
  | cons e rest ih =>
    have hpair := List.pairwise_cons.mp hinj
    rcases List.mem_cons.mp hc with hc1 | hc2 <;> rcases List.mem_cons.mp hd with hd1 | hd2
    · rw [hc1, hd1]
    · subst hc1
      rcases hpair.1 d hd2 with hxne | hyne
      · exact absurd hx hxne
      · exact absurd hy hyne
    · subst hd1
      rcases hpair.1 c hc2 with hxne | hyne
      · exact absurd hx.symm hxne
      · exact absurd hy.symm hyne
    · exact ih hpair.2 hc2 hd2

/-- A valid cell of a coordinate-injective grid is reproduced exactly:
the nearest valid sample to its own coordinates is itself. -/
theorem extrapolate_valid_cell {b : List Cell}
    (hinj : List.Pairwise (fun c d => c.x ≠ d.x ∨ c.y ≠ d.y) b)
    {k : Nat} {cell : Cell} {v : ℚ}
    (hk : b[k]? = some cell) (hv : cell.val = some v) :
    (extrapolate_data_array b)[k]? = some (Cell.mk cell.x cell.y (some v)) := by
  have hcell_mem : cell ∈ b := List.getElem?_mem hk
  have hs0 : Sample.mk cell.x cell.y v ∈ validSamples b :=
    validSamples_mem_of_cell hcell_mem hv
  have hne : validSamples b ≠ [] := List.ne_nil_of_mem hs0
  obtain ⟨s, hsel⟩ := Option.isSome_iff_exists.mp
    (selectNearest_isSome cell.x cell.y _ hne)
  have hmin := selectNearest_min cell.x cell.y _ s hsel _ hs0
  have hd0 : dist2 cell.x cell.y s.x s.y = 0 :=
    le_antisymm (by simpa [dist2_self] using hmin) (dist2_nonneg _ _ _ _)
  obtain ⟨hsx, hsy⟩ := (dist2_eq_zero_iff _ _ _ _).mp hd0
  obtain ⟨c2, hc2mem, hc2x, hc2y, hc2v⟩ :=
    validSamples_src (selectNearest_mem cell.x cell.y _ s hsel)
  have hsame : c2 = cell :=
    mem_eq_of_coords hinj hc2mem hcell_mem (by rw [hc2x, ← hsx]) (by rw [hc2y, ← hsy])
  have hsv : s.v = v := by
    rw [hsame, hv] at hc2v
    exact ((Option.some.injEq v s.v).mp hc2v).symm
  unfold extrapolate_data_array
  rw [List.getElem?_map, hk, Option.map_some', hsel]
  rw [Option.map_some', hsv]

/-- Every cell of the extrapolated grid takes the value of a distance-minimal
valid sample, provided at least one valid cell exists. -/
theorem extrapolate_any_cell {b : List Cell}
    (hval : ∃ c ∈ b, c.val.isSome = true)
    {k : Nat} {cell : Cell} (hk : b[k]? = some cell) :
    ∃ s ∈ validSamples b,
      (extrapolate_data_array b)[k]? = some (Cell.mk cell.x cell.y (some s.v)) ∧
      ∀ t ∈ validSamples b, dist2 cell.x cell.y s.x s.y ≤ dist2 cell.x cell.y t.x t.y := by
  obtain ⟨c, hc, hcs⟩ := hval
  obtain ⟨v, hv⟩ := Option.isSome_iff_exists.mp hcs
  have hne : validSamples b ≠ [] :=
    List.ne_nil_of_mem (validSamples_mem_of_cell hc hv)
  obtain ⟨s, hsel⟩ := Option.isSome_iff_exists.mp
    (selectNearest_isSome cell.x cell.y _ hne)
  refine ⟨s, selectNearest_mem _ _ _ s hsel, ?_, selectNearest_min _ _ _ s hsel⟩
  unfold extrapolate_data_array
  rw [List.getElem?_map, hk, Option.map_some', hsel, Option.map_some']

/-- The extrapolated grid of a band with at least one valid cell has no NaN. -/
theorem extrapolate_no_nan {b : List Cell} (hval : ∃ c ∈ b, c.val.isSome = true) :
    ∀ c2 ∈ extrapolate_data_array b, c2.val.isSome = true := by
  intro c2 hc2
  unfold extrapolate_data_array at hc2
  obtain ⟨c, hc, rfl⟩ := List.mem_map.mp hc2
  obtain ⟨d, hd, hds⟩ := hval
  obtain ⟨v, hv⟩ := Option.isSome_iff_exists.mp hds
  have hne : validSamples b ≠ [] :=
    List.ne_nil_of_mem (validSamples_mem_of_cell hd hv)
  have hsome := selectNearest_isSome c.x c.y _ hne
  simpa [Option.isSome_map'] using hsome

/-- Extrapolation preserves the coordinates, hence coordinate injectivity. -/
theorem extrapolate_pairwise {b : List Cell}
    (hinj : List.Pairwise (fun c d => c.x ≠ d.x ∨ c.y ≠ d.y) b) :
    List.Pairwise (fun c d => c.x ≠ d.x ∨ c.y ≠ d.y) (extrapolate_data_array b) := by
  unfold extrapolate_data_array
  rw [List.pairwise_map]
  exact hinj

/-- Extrapolating an already extrapolated band changes nothing: every cell is
valid and nearest to itself. -/
theorem extrapolate_idem {b : List Cell}
    (hval : ∃ c ∈ b, c.val.isSome = true)
    (hinj : List.Pairwise (fun c d => c.x ≠ d.x ∨ c.y ≠ d.y) b) :
    extrapolate_data_array (extrapolate_data_array b) = extrapolate_data_array b := by
  have hlen : (extrapolate_data_array b).length = b.length := by
    unfold extrapolate_data_array
    exact List.length_map b _
  have hlen2 : (extrapolate_data_array (extrapolate_data_array b)).length = b.length := by
    rw [← hlen]
    unfold extrapolate_data_array
    exact List.length_map _ _
  apply List.ext_getElem?
  intro k
  by_cases hk : k < b.length
  · obtain ⟨cell, hcell⟩ : ∃ cell, b[k]? = some cell :=
      ⟨b[k], List.getElem?_eq_getElem hk⟩
    obtain ⟨d, hd, hds⟩ := hval
    obtain ⟨v, hv⟩ := Option.isSome_iff_exists.mp hds
    have hne : validSamples b ≠ [] :=
      List.ne_nil_of_mem (validSamples_mem_of_cell hd hv)
    obtain ⟨s, hsel⟩ := Option.isSome_iff_exists.mp
      (selectNearest_isSome cell.x cell.y _ hne)
    have hk2 : (extrapolate_data_array b)[k]?
        = some (Cell.mk cell.x cell.y (some s.v)) := by
      unfold extrapolate_data_array
      rw [List.getElem?_map, hcell, Option.map_some', hsel, Option.map_some']
    have := extrapolate_valid_cell (extrapolate_pairwise hinj) hk2 rfl
    rw [this, hk2]
  · have h1 : (extrapolate_data_array (extrapolate_data_array b))[k]? = none :=
      List.getElem?_eq_none (by rw [hlen2]; exact Nat.le_of_not_lt hk)
    have h2 : (extrapolate_data_array b)[k]? = none :=
      List.getElem?_eq_none (by rw [hlen]; exact Nat.le_of_not_lt hk)
    rw [h1, h2]

/-- C5: per-band extrapolation of a coordinate-injective grid with at least
one valid cell per band keeps the shape, produces no NaN, reproduces every
valid cell exactly, fills every cell with the value of a nearest valid sample
in Euclidean coordinate space, and is idempotent. -/
theorem extrapolation_properties (bands : List (List Cell))
    (hval : ∀ b ∈ bands, ∃ c ∈ b, c.val.isSome = true)
    (hinj : ∀ b ∈ bands, List.Pairwise (fun c d => c.x ≠ d.x ∨ c.y ≠ d.y) b) :
    (extrapolate_c_factor bands).length = bands.length ∧
    (∀ b2 ∈ extrapolate_c_factor bands, ∀ c ∈ b2, c.val.isSome = true) ∧
    (∀ b ∈ bands, ∀ k : Nat, ∀ cell : Cell, ∀ v : ℚ, b[k]? = some cell →
      cell.val = some v →
      (extrapolate_data_array b)[k]? = some (Cell.mk cell.x cell.y (some v))) ∧
    (∀ b ∈ bands, ∀ k : Nat, ∀ cell : Cell, b[k]? = some cell → cell.val = none →
      ∃ s ∈ validSamples b,
        (extrapolate_data_array b)[k]? = some (Cell.mk cell.x cell.y (some s.v)) ∧
        ∀ t ∈ validSamples b,
          dist2 cell.x cell.y s.x s.y ≤ dist2 cell.x cell.y t.x t.y) ∧
    extrapolate_c_factor (extrapolate_c_factor bands) = extrapolate_c_factor bands := by
  refine ⟨?_, ?_, ?_, ?_, ?_⟩
  · unfold extrapolate_c_factor
    exact List.length_map bands _
  · intro b2 hb2 c hc
    unfold extrapolate_c_factor at hb2
    obtain ⟨b, hb, rfl⟩ := List.mem_map.mp hb2
    exact extrapolate_no_nan (hval b hb) c hc
  · intro b hb k cell v hk hv
    exact extrapolate_valid_cell (hinj b hb) hk hv
  · intro b hb k cell hk _
    exact extrapolate_any_cell (hval b hb) hk
  · unfold extrapolate_c_factor
    rw [List.map_map]
    refine List.map_congr_left ?_
    intro b hb
    exact extrapolate_idem (hval b hb) (hinj b hb)

/-- Witness for C5 on a one-band grid with one NaN cell. -/
theorem extrapolation_properties_witness :
    (∀ b ∈ bands₀, ∃ c ∈ b, c.val.isSome = true) ∧
    (∀ b ∈ bands₀, List.Pairwise (fun c d => c.x ≠ d.x ∨ c.y ≠ d.y) b) ∧
    (∀ b2 ∈ extrapolate_c_factor bands₀, ∀ c ∈ b2, c.val.isSome = true) ∧
    extrapolate_c_factor (extrapolate_c_factor bands₀) = extrapolate_c_factor bands₀ := by
  have h1 : ∀ b ∈ bands₀, ∃ c ∈ b, c.val.isSome = true := by decide
  have h2 : ∀ b ∈ bands₀, List.Pairwise (fun c d => c.x ≠ d.x ∨ c.y ≠ d.y) b := by decide
  have h := extrapolation_properties bands₀ h1 h2
  exact ⟨h1, h2, h.2.1, h.2.2.2.2⟩

end Sen2nbar
